import Mathlib

set_option maxHeartbeats 1000000

/-!
Verification of the c2e codec compiler (`c2e_codec.py`, `codec2ast.py`).

Python strings are modelled as lists of code points (`List Nat`), since
guard operands may be arbitrary code points (including surrogates, which
Lean's `Char` excludes).  AST nodes (`codec2ast.py`) are a mutual
inductive: `AstNode` with an `EmitterSeq` for the emitter tuple held by
`EmitterList`.  Fallible Python code (exceptions) is modelled with
`Option`/`Except`; the unbounded recursion of `parseEmitter` is modelled
with explicit fuel, where exhausting every finite fuel corresponds to
nontermination of the source.
-/

namespace C2E

/-- The binary operations enum of `codec2ast.BinOp.OPS`
(`land`: logical and, `lor`: logical or). -/
inductive OPS where
  | land
  | lor
  | eq
  | lt
  | gt
  | lte
  | gte
deriving DecidableEq, Repr

mutual
/-- AST nodes from `codec2ast.py`: `Codepoint` (stored by ordinal),
`Candidate`, `BinOp`, `Bool`, `Nop`, the builtin emitter (`Codec.Builtin`),
`ConstantEmitter`, `EmitterList` and `If`. -/
inductive AstNode where
  | Codepoint (cp : Nat)
  | Candidate
  | BinOp (operation : OPS) (operand1 operand2 : AstNode)
  | Bool (value : Bool)
  | Nop
  | Builtin (name : String)
  | ConstantEmitter (s : String)
  | EmitterList (emitters : EmitterSeq)
  | If (condition iftrue iffalse : AstNode)
deriving DecidableEq, Repr
/-- The ordered tuple of emitters held by an `EmitterList` node. -/
inductive EmitterSeq where
  | nil
  | cons (head : AstNode) (tail : EmitterSeq)
deriving DecidableEq, Repr
end

/-- `[0-9a-fA-F]` on a code point. -/
def isHexDigit (c : Nat) : Bool :=
  (0x30 ≤ c && c ≤ 0x39) || (0x41 ≤ c && c ≤ 0x46) || (0x61 ≤ c && c ≤ 0x66)

/-- Value of a hex digit code point (the digit sets of `int(x, 16)`);
only meaningful when `isHexDigit` holds. -/
def hexVal (c : Nat) : Nat :=
  if c ≤ 0x39 then c - 0x30 else if c ≤ 0x46 then c - 0x41 + 10 else c - 0x61 + 10

/-- Read exactly `n` hex digits from the front of `l`, folding them onto
accumulator `acc` (most significant first, as `int(.., 16)` does);
returns the value and the unread remainder, or `none` if fewer than `n`
hex digits are present. -/
def readHexAux : Nat → Nat → List Nat → Option (Nat × List Nat)
  | 0, acc, l => some (acc, l)
  | _ + 1, _, [] => none
  | n + 1, acc, c :: l =>
    if isHexDigit c then readHexAux n (acc * 16 + hexVal c) l else none

/-- `Codec._unicode_form_regex`: `^(?:u|U)\+([0-9a-fA-F]{6}|[0-9a-fA-F]{4})$`,
fully anchored, the 6-digit alternative tried first.  Returns the parsed
ordinal (`chr(int(rm.group(1), 16))` in the source). -/
def parseUform (g : List Nat) : Option Nat :=
  match g with
  | u :: p :: rest =>
    if (u = 0x75 || u = 0x55) && p = 0x2B then
      match readHexAux 6 0 rest with
      | some (v, []) => some v
      | _ =>
        match readHexAux 4 0 rest with
        | some (v, []) => some v
        | _ => none
    else none
  | _ => none

/-- The candidates, in the regex engine's preference order, for the
group `(?:u|U)\+(?:[0-9a-fA-F]{6}|[0-9a-fA-F]{4})` matched at the front
of `l` (already converted to its ordinal, as the source's inner
re-match against `_unicode_form_regex` does). -/
def readUformCands (l : List Nat) : List (Nat × List Nat) :=
  match l with
  | u :: p :: rest =>
    if (u = 0x75 || u = 0x55) && p = 0x2B then
      (match readHexAux 6 0 rest with
       | some c => [c]
       | none => []) ++
      (match readHexAux 4 0 rest with
       | some c => [c]
       | none => [])
    else []
  | _ => []

/-- The candidates, in preference order, for one range operand
`((?:u|U)\+(?:[0-9a-fA-F]{6}|[0-9a-fA-F]{4})|.)`: the hex-escape
alternatives first, then `.` (any single code point, `re.DOTALL`). -/
def readG (l : List Nat) : List (Nat × List Nat) :=
  readUformCands l ++
    (match l with
     | c :: rest => [(c, rest)]
     | [] => [])

/-- `Codec._range_regex` applied with `re.match`: anchored at the start
only (no `$`), with the regex engine's backtracking over the operand
alternatives.  Returns the ordinals of the two operands on a match. -/
def matchRange (g : List Nat) : Option (Nat × Nat) :=
  match g with
  | lp :: rest =>
    if lp = 0x28 then
      (readG rest).findSome? fun p =>
        match p.2 with
        | d :: r2 =>
          if d = 0x2D then
            (readG r2).findSome? fun q =>
              match q.2 with
              | rp :: _ => if rp = 0x29 then some (p.1, q.1) else none
              | [] => none
          else none
        | [] => none
    else none
  | [] => none

/-- `parseGuard` from `c2e_codec.py`: tries `^.$` (DOTALL), then the
unicode form, then the range regex.  `none` models both the fall-through
(the Python function returns `None`, which the `If.condition` setter
then rejects) and the reversed-range `assert` failure: in every such
case compilation of the codec aborts. -/
def parseGuard (g : List Nat) : Option AstNode :=
  match g with
  | [c] => some (.BinOp .eq .Candidate (.Codepoint c))
  | _ =>
    match parseUform g with
    | some v => some (.BinOp .eq .Candidate (.Codepoint v))
    | none =>
      match matchRange g with
      | some (mn, mx) =>
        if mn ≤ mx then
          some (.BinOp .land (.BinOp .gte .Candidate (.Codepoint mn))
            (.BinOp .lte .Candidate (.Codepoint mx)))
        else none
      | none => none

/-- Code points of a Lean string literal (for writing concrete guards). -/
def strCps (s : String) : List Nat := s.data.map Char.toNat

/-- An emitter specification as it appears in a codec document:
either a literal string, or a reference object `{"emitter": name}`. -/
inductive EmitterSpec where
  | str (s : String)
  | ref (name : String)
deriving DecidableEq, Repr

/-- A codec document (`.c2e` file, already JSON-parsed): `TARGET`,
`RULES` (ordered single-entry mappings, modelled as guard/emitter
pairs), optional `DEFAULT-EMITTER`, and every other top-level key as a
user-defined emitter definition, in document order. -/
structure CodecDoc where
  target : String
  rules : List (List Nat × EmitterSpec)
  defaultEmitter : Option EmitterSpec
  userEmitters : List (String × List EmitterSpec)
deriving DecidableEq, Repr

/-- `Codec._builtin_emitters`. -/
def builtin_emitters : List String := ["DEC", "HEX", "NOP", "IDENTITY"]

/-- `Codec._userdefined_emitters`: the non-keyword top-level keys, in
document order. -/
def userNames (doc : CodecDoc) : List String := doc.userEmitters.map (fun p => p.1)

/-- `self.codec[em]`: the definition list of a user-defined emitter. -/
def lookupUser (doc : CodecDoc) (name : String) : List EmitterSpec :=
  match doc.userEmitters.find? (fun p => p.1 == name) with
  | some p => p.2
  | none => []

/-- Failures of `parseEmitter`: `notBuiltin` is the
`ValueError(\"That is not a builtin\")` raised by `Codec.Builtin` for a
name that is neither user-defined nor builtin; `outOfFuel` models the
source recursing past any finite depth (it has no cycle guard). -/
inductive EmitErr where
  | notBuiltin
  | outOfFuel
deriving DecidableEq, Repr

mutual
/-- `parseEmitter` from `c2e_codec.py`: a string becomes a
`ConstantEmitter`; a reference to a user-defined name is resolved by
recursively parsing that name's definition list into an `EmitterList`;
any other reference must be a builtin.  `fuel` bounds the recursion
depth; the source itself recurses unboundedly on cyclic definitions. -/
def parseEmitter (doc : CodecDoc) : Nat → EmitterSpec → Except EmitErr AstNode
  | _, .str s => .ok (.ConstantEmitter s)
  | fuel, .ref name =>
    if (userNames doc).contains name then
      match fuel with
      | 0 => .error .outOfFuel
      | fuel' + 1 =>
        match parseEmitterSeq doc fuel' (lookupUser doc name) with
        | .error e => .error e
        | .ok es => .ok (.EmitterList es)
    else if builtin_emitters.contains name then .ok (.Builtin name)
    else .error .notBuiltin
/-- The list comprehension `[parseEmitter(x) for x in self.codec[em]]`:
parses each element in order, propagating the first failure. -/
def parseEmitterSeq (doc : CodecDoc) : Nat → List EmitterSpec → Except EmitErr EmitterSeq
  | _, [] => .ok .nil
  | 0, _ :: _ => .error .outOfFuel
  | fuel + 1, spec :: rest =>
    match parseEmitter doc fuel spec with
    | .error e => .error e
    | .ok node =>
      match parseEmitterSeq doc fuel rest with
      | .error e => .error e
      | .ok es => .ok (.cons node es)
end

/-- Failures while compiling a codec document to its AST. -/
inductive CompileErr where
  | malformedGuard
  | emitterErr (e : EmitErr)
deriving DecidableEq, Repr

/-- Python truthiness of `self._default_emitter` as tested by
`if self._default_emitter:`: `None` and the empty string (and the empty
dict, which our `EmitterSpec` does not represent) are falsy. -/
def truthy : Option EmitterSpec → Bool
  | none => false
  | some (.str s) => !(s == "")
  | some (.ref _) => true

/-- The AST-building loop of `Codec.codec` (lines 96-105): one `If` per
rule in order, condition and true-branch from `parseRule`, false-branch
the next `If`; the last `If` keeps its constructor defaults
(`Nop`/`Nop`) except that its condition is set to `Bool.true` and, when
the default emitter is truthy, its true-branch to the parsed default. -/
def buildAst (doc : CodecDoc) (fuel : Nat) : List (List Nat × EmitterSpec) → Except CompileErr AstNode
  | [] =>
    if truthy doc.defaultEmitter then
      match doc.defaultEmitter with
      | some spec =>
        match parseEmitter doc fuel spec with
        | .ok em => .ok (.If (.Bool true) em .Nop)
        | .error e => .error (.emitterErr e)
      | none => .ok (.If (.Bool true) .Nop .Nop)
    else .ok (.If (.Bool true) .Nop .Nop)
  | (guard, espec) :: rest =>
    match parseGuard guard with
    | none => .error .malformedGuard
    | some cond =>
      match parseEmitter doc fuel espec with
      | .error e => .error (.emitterErr e)
      | .ok em =>
        match buildAst doc fuel rest with
        | .error e => .error e
        | .ok tail => .ok (.If cond em tail)

/-- A compiled `Codec`: its target name, the list returned by the
`emitters` property, and the root AST node. -/
structure Codec where
  target : String
  emitters : List String
  root : AstNode
deriving DecidableEq, Repr

/-- `Codec(document)`: builds the AST and exposes target, emitters
(`_builtin_emitters + _userdefined_emitters`) and root. -/
def compileCodec (doc : CodecDoc) (fuel : Nat) : Except CompileErr Codec :=
  match buildAst doc fuel doc.rules with
  | .error e => .error e
  | .ok root => .ok ⟨doc.target, builtin_emitters ++ userNames doc, root⟩

/-- The `ValueError` raised by `Encoder.add` for a duplicate target. -/
inductive AddErr where
  | duplicateTarget
deriving DecidableEq, Repr

/-- The `Encoder` registry: parallel lists `_targets` and `_codecs`. -/
structure Encoder where
  targets : List String
  codecs : List Codec
deriving DecidableEq, Repr

/-- `Encoder.__init__`. -/
def Encoder.empty : Encoder := ⟨[], []⟩

/-- `Encoder.add`: appends target and codec when the target is new,
otherwise raises and leaves the registry untouched (returned unchanged
alongside the error). -/
def Encoder.add (e : Encoder) (c : Codec) : Except AddErr Unit × Encoder :=
  if e.targets.contains c.target then (.error .duplicateTarget, e)
  else (.ok (), ⟨e.targets ++ [c.target], e.codecs ++ [c]⟩)

/-- One segment of a Python format string: literal text or a named
placeholder (positional `\x7b\x7d` is modelled as the name "0"). -/
inductive TSeg where
  | lit (s : String)
  | ph (key : String)
deriving DecidableEq, Repr

/-- A template string, as a sequence of segments. -/
abbrev Template := List TSeg

/-- `format_string.format(...)`: substitutes each placeholder from the
environment; a placeholder missing from the environment is Python's
`KeyError` (`none`). -/
def substT : Template → (String → Option String) → Option String
  | [], _ => some ""
  | .lit s :: rest, env =>
    match substT rest env with
    | some out => some (s ++ out)
    | none => none
  | .ph k :: rest, env =>
    match env k with
    | none => none
    | some v =>
      match substT rest env with
      | some out => some (v ++ out)
      | none => none

/-- A template returned without calling `.format` (as `visit_Candidate`,
`visit_Bool` and `visit_Nop` do): its raw text, placeholders included. -/
def renderRaw : Template → String
  | [] => ""
  | .lit s :: rest => s ++ renderRaw rest
  | .ph k :: rest => "\x7b" ++ k ++ "\x7d" ++ renderRaw rest

/-- `AstFormatter` state: the `_format_strings` dict (an association
list from dispatch key to template) and the configurable
`escape_func`. -/
structure AstFormatter where
  format_strings : List (String × Template)
  escape_func : Char → String

/-- The constructor default `escape_func`:
`lambda c: c if c != chr(92) else chr(92)*2`. -/
def defaultEscape (c : Char) : String :=
  if c = '\\' then "\\\\" else String.singleton c

/-- Dict lookup in `_format_strings`. -/
def lookupT (m : List (String × Template)) (k : String) : Option Template :=
  match m.find? (fun p => p.1 == k) with
  | some p => some p.2
  | none => none

/-- `node.operation.name` for the `BinOp` dispatch. -/
def opKey : OPS → String
  | .land => "land"
  | .lor => "lor"
  | .eq => "eq"
  | .lt => "lt"
  | .gt => "gt"
  | .lte => "lte"
  | .gte => "gte"

/-- `str(node.value).lower()` for the `Bool` dispatch. -/
def boolKey : Bool → String
  | true => "true"
  | false => "false"

/-- `node.__class__.__name__` (the `Codec.Builtin` subclass prints as
"Builtin"). -/
def className : AstNode → String
  | .Codepoint _ => "Codepoint"
  | .Candidate => "Candidate"
  | .BinOp _ _ _ => "BinOp"
  | .Bool _ => "Bool"
  | .Nop => "Nop"
  | .Builtin _ => "Builtin"
  | .ConstantEmitter _ => "ConstantEmitter"
  | .EmitterList _ => "EmitterList"
  | .If _ _ _ => "If"

/-- `AstFormatter.getFstring`: `BinOp` and `Bool` use `.get(key, '')`
(missing entry silently yields the empty template), every other node
kind uses `self._format_strings[classname]` (missing entry raises
`KeyError`, i.e. `none`). -/
def getFstring (f : AstFormatter) (n : AstNode) : Option Template :=
  match n with
  | .BinOp op _ _ => some ((lookupT f.format_strings (opKey op)).getD [])
  | .Bool b => some ((lookupT f.format_strings (boolKey b)).getD [])
  | _ => lookupT f.format_strings (className n)

mutual
/-- The `visit_*` methods of `AstFormatter`, with the formatter object
threaded through every child visit exactly as `self` is in the source
(no method writes to it, which `renderSt_state` below proves); the
first component is the rendered string, `none` standing for a raised
`KeyError`. -/
def renderSt (f : AstFormatter) : AstNode → Option String × AstFormatter
  | .Codepoint cp =>
    match getFstring f (.Codepoint cp) with
    | none => (none, f)
    | some fs =>
      (substT fs (fun k => if k == "codepoint" then some (toString cp) else none), f)
  | .Candidate =>
    match getFstring f .Candidate with
    | none => (none, f)
    | some fs => (some (renderRaw fs), f)
  | .BinOp op o1 o2 =>
    match getFstring f (.BinOp op o1 o2) with
    | none => (none, f)
    | some fs =>
      match renderSt f o1 with
      | (none, f1) => (none, f1)
      | (some s1, f1) =>
        match renderSt f1 o2 with
        | (none, f2) => (none, f2)
        | (some s2, f2) =>
          (substT fs (fun k =>
            if k == "operand1" then some s1
            else if k == "operand2" then some s2 else none), f2)
  | .Bool b =>
    match getFstring f (.Bool b) with
    | none => (none, f)
    | some fs => (some (renderRaw fs), f)
  | .Nop =>
    match getFstring f .Nop with
    | none => (none, f)
    | some fs => (some (renderRaw fs), f)
  | .Builtin name =>
    match getFstring f (.Builtin name) with
    | none => (none, f)
    | some fs =>
      (substT fs (fun k => if k == "builtin" then some name else none), f)
  | .ConstantEmitter s =>
    match getFstring f (.ConstantEmitter s) with
    | none => (none, f)
    | some fs =>
      (substT fs (fun k =>
        if k == "0" then some (String.join (s.data.map f.escape_func)) else none), f)
  | .EmitterList es => renderSeqSt f es
  | .If c t e =>
    match getFstring f (.If c t e) with
    | none => (none, f)
    | some fs =>
      match renderSt f c with
      | (none, f1) => (none, f1)
      | (some sc, f1) =>
        match renderSt f1 t with
        | (none, f2) => (none, f2)
        | (some st, f2) =>
          match renderSt f2 e with
          | (none, f3) => (none, f3)
          | (some se, f3) =>
            (substT fs (fun k =>
              if k == "condition" then some sc
              else if k == "iftrue" then some st
              else if k == "iffalse" then some se else none), f3)
/-- `visit_EmitterList`: visits each emitter in order and joins the
results. -/
def renderSeqSt (f : AstFormatter) : EmitterSeq → Option String × AstFormatter
  | .nil => (some "", f)
  | .cons h t =>
    match renderSt f h with
    | (none, f1) => (none, f1)
    | (some s, f1) =>
      match renderSeqSt f1 t with
      | (none, f2) => (none, f2)
      | (some sr, f2) => (some (s ++ sr), f2)
end

/-- Operand value of a comparison, for the guard semantics below. -/
def evalAtom (n : AstNode) (p : Nat) : Nat :=
  match n with
  | .Candidate => p
  | .Codepoint c => c
  | _ => 0

/-- Modelled from the spec: the matching semantics of guard predicates
(spec section 4.1 and the glossary entry "Guard: a predicate over a
candidate").  The repository itself never evaluates guards — that
happens in the generated target-language code — so the denotation of a
predicate over a candidate code point `p` is taken from the spec's
words: comparisons compare the candidate with the codepoint by ordinal,
`AND`/`OR` are boolean connectives, `Bool` is constant. -/
def evalGuard (g : AstNode) (p : Nat) : Bool :=
  match g with
  | .Bool b => b
  | .BinOp .land a b => evalGuard a p && evalGuard b p
  | .BinOp .lor a b => evalGuard a p || evalGuard b p
  | .BinOp .eq a b => evalAtom a p == evalAtom b p
  | .BinOp .lt a b => decide (evalAtom a p < evalAtom b p)
  | .BinOp .gt a b => decide (evalAtom a p > evalAtom b p)
  | .BinOp .lte a b => decide (evalAtom a p ≤ evalAtom b p)
  | .BinOp .gte a b => decide (evalAtom a p ≥ evalAtom b p)
  | _ => false

/-- The predicate produced for a single-codepoint guard of ordinal `c`. -/
def eqAst (c : Nat) : AstNode := .BinOp .eq .Candidate (.Codepoint c)

/-- The predicate produced for a range guard with bounds `a ≤ b`. -/
def rangeAst (a b : Nat) : AstNode :=
  .BinOp .land (.BinOp .gte .Candidate (.Codepoint a))
    (.BinOp .lte .Candidate (.Codepoint b))

/-- A range operand text denoting ordinal `v`: either the literal
single code point, or a hex escape. -/
def isOperand (t : List Nat) (v : Nat) : Prop := t = [v] ∨ parseUform t = some v

/-- Modelled from the spec: the right-leaning rule chain of section 4.3,
written as a fold so the compiled AST can be compared against it. -/
def ruleChain (pairs : List (AstNode × AstNode)) (final : AstNode) : AstNode :=
  pairs.foldr (fun p acc => .If p.1 p.2 acc) final

/-- Modelled from the spec: a guard text that is exactly the range form
`(A-B)` of section 4.1, nothing following the closing parenthesis. -/
def specRangeForm (g : List Nat) : Prop :=
  ∃ ta a tb b, isOperand ta a ∧ isOperand tb b ∧ g = 0x28 :: (ta ++ 0x2D :: (tb ++ [0x29]))

/-- The character for hex digit `d` (uppercase), for building escapes. -/
def hexDigitChar (d : Nat) : Nat := if d < 10 then 0x30 + d else 0x41 + (d - 10)

/-- The `n`-digit zero-padded hex spelling of `v`, most significant
digit first. -/
def toHexDigits : Nat → Nat → List Nat
  | 0, _ => []
  | n + 1, v => hexDigitChar (v / 16 ^ n) :: toHexDigits n (v % 16 ^ n)

/-- The invariant `Encoder.add` maintains: `_targets` mirrors the
targets of `_codecs`, and is duplicate-free. -/
def EncoderWF (e : Encoder) : Prop :=
  e.targets = e.codecs.map Codec.target ∧ e.targets.Nodup

/-- Node kinds whose formatter dispatch goes through
`self._format_strings[classname]` (and so raises `KeyError` when the
key is missing), as opposed to the `.get(key, '')` dispatch of `BinOp`
and `Bool` and the lookup-free `EmitterList`. -/
def isClassDispatched : AstNode → Bool
  | .Codepoint _ => true
  | .Candidate => true
  | .BinOp _ _ _ => false
  | .Bool _ => false
  | .Nop => true
  | .Builtin _ => true
  | .ConstantEmitter _ => true
  | .EmitterList _ => false
  | .If _ _ _ => true

/-- A document whose only rule is guard `<` with the builtin `HEX`
emitter and default emitter the literal string `x`. -/
def doc1 : CodecDoc := ⟨"t", [(strCps "<", .ref "HEX")], some (.str "x"), []⟩

/-- A document with no rules whose `DEFAULT-EMITTER` is the empty
string: a supplied default that is Python-falsy. -/
def doc0 : CodecDoc := ⟨"t", [], some (.str ""), []⟩

/-- A document with no rules, no default and no user-defined emitters:
nothing in it references any builtin emitter. -/
def docNB : CodecDoc := ⟨"t", [], none, []⟩

/-- The document of spec section 8: a user-defined emitter `A` defined
as `[{"emitter": "A"}]`. -/
def cyclicDoc : CodecDoc := ⟨"t", [], none, [("A", [.ref "A"])]⟩

/-- A formatter configured with no templates at all. -/
def emptyFmt : AstFormatter := ⟨[], defaultEscape⟩

/-- A codec whose target is "html". -/
def htmlC1 : Codec := ⟨"html", builtin_emitters, .Nop⟩

/-- A second, different codec whose target is also "html". -/
def htmlC2 : Codec := ⟨"html", builtin_emitters, .Candidate⟩

/-- An encoder to which the first "html" codec has been added. -/
def enc1 : Encoder := (Encoder.add Encoder.empty htmlC1).2

/-! ### Lemmas about hex reading -/

theorem readHexAux_append : ∀ (n acc : Nat) (xs : List Nat) (v : Nat),
    readHexAux n acc xs = some (v, []) →
    ∀ (m : Nat) (ys : List Nat), readHexAux (n + m) acc (xs ++ ys) = readHexAux m v ys := by
  intro n
  induction n with
  | zero =>
    intro acc xs v h m ys
    simp [readHexAux] at h
    obtain ⟨h1, h2⟩ := h
    subst h1; subst h2
    simp [Nat.zero_add]
  | succ n ih =>
    intro acc xs v h m ys
    cases xs with
    | nil => simp [readHexAux] at h
    | cons c xs' =>
      simp only [readHexAux] at h
      by_cases hc : isHexDigit c = true
      · simp only [hc, if_true] at h
        rw [Nat.succ_add]
        simp only [List.cons_append, readHexAux, hc, if_true]
        exact ih _ _ _ h m ys
      · simp [hc] at h

theorem hexDigitChar_facts : ∀ d, d < 16 →
    isHexDigit (hexDigitChar d) = true ∧ hexVal (hexDigitChar d) = d := by decide

theorem readHexAux_toHexDigits : ∀ (n acc v : Nat), v < 16 ^ n →
    readHexAux n acc (toHexDigits n v) = some (acc * 16 ^ n + v, []) := by
  intro n
  induction n with
  | zero =>
    intro acc v hv
    have hz : v = 0 := by simpa using Nat.lt_one_iff.mp (by simpa using hv)
    subst hz
    simp [toHexDigits, readHexAux]
  | succ n ih =>
    intro acc v hv
    have hd : v / 16 ^ n < 16 := by
      apply Nat.div_lt_of_lt_mul
      rw [pow_succ] at hv
      exact hv
    have hfacts := hexDigitChar_facts (v / 16 ^ n) hd
    simp only [toHexDigits, readHexAux, hfacts.1, if_true, hfacts.2]
    have hmod : v % 16 ^ n < 16 ^ n := Nat.mod_lt _ (by positivity)
    rw [ih (acc * 16 + v / 16 ^ n) (v % 16 ^ n) hmod]
    have hdm := Nat.div_add_mod v (16 ^ n)
    have h1 : (acc * 16 + v / 16 ^ n) * 16 ^ n + v % 16 ^ n
        = acc * (16 ^ n * 16) + (16 ^ n * (v / 16 ^ n) + v % 16 ^ n) := by ring
    rw [h1, hdm, pow_succ]

/-- C8: for every literal character `c` (whose ordinal admits a 4-digit
hex spelling), `parseGuard` applied to the single character, to `U+`
with the 4-digit hex of its ordinal, and to `U+` with the zero-padded
6-digit hex, produce the same predicate `EQ(Candidate, Codepoint(c))`,
which matches exactly the single code point `c`. -/
theorem c8_hex_equiv (c : Nat) (h : c < 0x10000) :
    parseGuard [c] = some (eqAst c) ∧
    parseGuard (0x55 :: 0x2B :: toHexDigits 4 c) = some (eqAst c) ∧
    parseGuard (0x55 :: 0x2B :: toHexDigits 6 c) = some (eqAst c) ∧
    ∀ p, (evalGuard (eqAst c) p = true ↔ p = c) := by
  have h4 : readHexAux 4 0 (toHexDigits 4 c) = some (c, []) := by
    have := readHexAux_toHexDigits 4 0 c (by norm_num at h ⊢; omega)
    simpa using this
  have h6 : readHexAux 6 0 (toHexDigits 6 c) = some (c, []) := by
    have := readHexAux_toHexDigits 6 0 c (by norm_num at h ⊢; omega)
    simpa using this
  have hlen4 : toHexDigits 4 c ≠ [] := by simp [toHexDigits]
  refine ⟨by simp [parseGuard, eqAst], ?_, ?_, ?_⟩
  · -- the 4-digit escape
    have h6fail : readHexAux 6 0 (toHexDigits 4 c) = none := by
      have := readHexAux_append 4 0 (toHexDigits 4 c) c h4 2 []
      rw [List.append_nil] at this
      norm_num at this
      rw [this]
      simp [readHexAux]
    cases e : toHexDigits 4 c with
    | nil => exact absurd e hlen4
    | cons d ds =>
      rw [e] at h4 h6fail
      simp [parseGuard, parseUform, h4, h6fail, eqAst]
  · -- the 6-digit escape
    cases e : toHexDigits 6 c with
    | nil => simp [toHexDigits] at e
    | cons d ds =>
      rw [e] at h6
      simp [parseGuard, parseUform, h6, eqAst]
  · intro p
    simp [evalGuard, eqAst, evalAtom]

/-- Concrete instance of `c8_hex_equiv` at the letter `A` (ordinal 65):
`A`, `U+0041` and `U+000041` denote the same predicate. -/
theorem c8_hex_equiv_witness :
    parseGuard [65] = some (eqAst 65) ∧
    parseGuard (0x55 :: 0x2B :: toHexDigits 4 65) = some (eqAst 65) ∧
    parseGuard (0x55 :: 0x2B :: toHexDigits 6 65) = some (eqAst 65) ∧
    (evalGuard (eqAst 65) 65 = true ↔ 65 = 65) := by
  have h := c8_hex_equiv 65 (by norm_num)
  exact ⟨h.1, h.2.1, h.2.2.1, h.2.2.2 65⟩

/-! ### Lemmas about range matching -/

theorem parseUform_cases (t : List Nat) (v : Nat) (h : parseUform t = some v) :
    ∃ u rest, t = u :: 0x2B :: rest ∧ (u = 0x75 ∨ u = 0x55) ∧
      (readHexAux 6 0 rest = some (v, []) ∨ readHexAux 4 0 rest = some (v, [])) := by
  cases t with
  | nil => simp [parseUform] at h
  | cons u t' =>
    cases t' with
    | nil => simp [parseUform] at h
    | cons p rest =>
      simp only [parseUform] at h
      split at h
      case isTrue hcond =>
        simp only [Bool.and_eq_true, Bool.or_eq_true, decide_eq_true_eq] at hcond
        obtain ⟨hu, hp⟩ := hcond
        subst hp
        refine ⟨u, rest, rfl, hu, ?_⟩
        rcases e6 : readHexAux 6 0 rest with _ | ⟨v6, l6⟩
        · rw [e6] at h
          rcases e4 : readHexAux 4 0 rest with _ | ⟨v4, l4⟩
          · rw [e4] at h; simp at h
          · rw [e4] at h
            cases l4 with
            | nil => simp at h; subst h; exact Or.inr rfl
            | cons _ _ => simp at h
        · rw [e6] at h
          cases l6 with
          | nil => simp at h; subst h; exact Or.inl rfl
          | cons _ _ =>
            rcases e4 : readHexAux 4 0 rest with _ | ⟨v4, l4⟩
            · rw [e4] at h; simp at h
            · rw [e4] at h
              cases l4 with
              | nil => simp at h; subst h; exact Or.inr rfl
              | cons _ _ => simp at h
      case isFalse => simp at h

theorem findSome?_readG {α : Type} (ta : List Nat) (a : Nat) (hop : isOperand ta a)
    (c : Nat) (r : List Nat) (hc1 : c ≠ 0x2B) (hc2 : isHexDigit c = false)
    (k : Nat × List Nat → Option α) (out : α) (hk : k (a, c :: r) = some out) :
    (readG (ta ++ c :: r)).findSome? k = some out := by
  rcases hop with h | h
  · subst h
    have hu : readUformCands (a :: c :: r) = [] := by
      simp [readUformCands, hc1]
    simp [readG, hu, List.findSome?_cons, hk]
  · obtain ⟨u, rest, hta, hu, hcase⟩ := parseUform_cases ta a h
    subst hta
    rcases hcase with h6 | h4
    · have hApp := readHexAux_append 6 0 rest a h6 0 (c :: r)
      simp only [Nat.add_zero, readHexAux] at hApp
      rcases hu with rfl | rfl <;>
        simp [readG, readUformCands, hApp, List.findSome?_cons, hk]
    · have hApp := readHexAux_append 4 0 rest a h4 0 (c :: r)
      simp only [Nat.add_zero, readHexAux] at hApp
      have h6fail : readHexAux 6 0 (rest ++ c :: r) = none := by
        have h2 := readHexAux_append 4 0 rest a h4 2 (c :: r)
        norm_num at h2
        rw [h2]
        simp [readHexAux, hc2]
      rcases hu with rfl | rfl <;>
        simp [readG, readUformCands, hApp, h6fail, List.findSome?_cons, hk]

theorem matchRange_operands (ta tb : List Nat) (a b : Nat)
    (h1 : isOperand ta a) (h2 : isOperand tb b) (tail : List Nat) :
    matchRange (0x28 :: (ta ++ 0x2D :: (tb ++ 0x29 :: tail))) = some (a, b) := by
  simp only [matchRange, if_pos rfl]
  apply findSome?_readG ta a h1 0x2D _ (by norm_num) (by decide)
  show (readG (tb ++ 0x29 :: tail)).findSome? _ = some (a, b)
  apply findSome?_readG tb b h2 0x29 tail (by norm_num) (by decide)
  rfl

theorem parseGuard_paren (x : Nat) (l : List Nat) :
    parseGuard (0x28 :: x :: l) =
      match matchRange (0x28 :: x :: l) with
      | some (mn, mx) => if mn ≤ mx then some (rangeAst mn mx) else none
      | none => none := by
  have hu : parseUform (0x28 :: x :: l) = none := by
    simp [parseUform]
  simp [parseGuard, hu, rangeAst]

theorem parseGuard_range (ta tb : List Nat) (a b : Nat)
    (h1 : isOperand ta a) (h2 : isOperand tb b) (hab : a ≤ b) (tail : List Nat) :
    parseGuard (0x28 :: (ta ++ 0x2D :: (tb ++ 0x29 :: tail))) = some (rangeAst a b) := by
  obtain ⟨x, ta', hta⟩ : ∃ x ta', ta = x :: ta' := by
    rcases h1 with h | h
    · exact ⟨a, [], h⟩
    · obtain ⟨u, rest, hta, _, _⟩ := parseUform_cases ta a h
      exact ⟨u, _, hta⟩
  have hm := matchRange_operands ta tb a b h1 h2 tail
  subst hta
  rw [List.cons_append] at hm ⊢
  rw [parseGuard_paren, hm]
  simp [hab]

/-- C7: a range guard `(A-B)` with ordinals `a ≤ b` parses to
`AND(GTE(Candidate, a), LTE(Candidate, b))`, which matches a candidate
`p` exactly when `a ≤ p ≤ b`. -/
theorem c7_range_guard (ta tb : List Nat) (a b : Nat)
    (h1 : isOperand ta a) (h2 : isOperand tb b) (hab : a ≤ b) :
    parseGuard (0x28 :: (ta ++ 0x2D :: (tb ++ [0x29]))) = some (rangeAst a b) ∧
    ∀ p, (evalGuard (rangeAst a b) p = true ↔ a ≤ p ∧ p ≤ b) := by
  constructor
  · exact parseGuard_range ta tb a b h1 h2 hab []
  · intro p
    simp [evalGuard, rangeAst, evalAtom, ge_iff_le]

/-- Concrete instance of `c7_range_guard`: `(a-z)` matches `m` and
rejects the code points just outside the range. -/
theorem c7_range_guard_witness :
    parseGuard (strCps "(a-z)") = some (rangeAst 97 122) ∧
    evalGuard (rangeAst 97 122) 109 = true ∧
    evalGuard (rangeAst 97 122) 96 = false ∧
    evalGuard (rangeAst 97 122) 123 = false := by
  have h := c7_range_guard [97] [122] 97 122 (Or.inl rfl) (Or.inl rfl) (by norm_num)
  refine ⟨?_, by decide, by decide, by decide⟩
  have heq : strCps "(a-z)" = 0x28 :: ([97] ++ 0x2D :: ([122] ++ [0x29])) := by decide
  rw [heq]
  exact h.1

/-- C10: a guard text that begins with a well-formed range `(A-B)`
(ordinals `a ≤ b`) and continues with extra characters after the
closing parenthesis does not fail: it parses to the same range
predicate as the bare `(A-B)`. -/
theorem c10_trailing_range (ta tb tail : List Nat) (a b : Nat)
    (h1 : isOperand ta a) (h2 : isOperand tb b) (hab : a ≤ b) (htail : tail ≠ []) :
    parseGuard (0x28 :: (ta ++ 0x2D :: (tb ++ 0x29 :: tail))) = some (rangeAst a b) ∧
    parseGuard (0x28 :: (ta ++ 0x2D :: (tb ++ [0x29]))) = some (rangeAst a b) :=
  ⟨parseGuard_range ta tb a b h1 h2 hab tail,
   parseGuard_range ta tb a b h1 h2 hab []⟩

/-- Concrete instance of `c10_trailing_range`: `(a-b)x` parses to the
same predicate as `(a-b)`. -/
theorem c10_trailing_range_witness :
    parseGuard (strCps "(a-b)x") = some (rangeAst 97 98) ∧
    parseGuard (strCps "(a-b)") = some (rangeAst 97 98) := by
  have h := c10_trailing_range [97] [98] [120] 97 98 (Or.inl rfl) (Or.inl rfl)
    (by norm_num) (by simp)
  constructor
  · have heq : strCps "(a-b)x" = 0x28 :: ([97] ++ 0x2D :: ([98] ++ 0x29 :: [120])) := by decide
    rw [heq]
    exact h.1
  · have heq : strCps "(a-b)" = 0x28 :: ([97] ++ 0x2D :: ([98] ++ [0x29])) := by decide
    rw [heq]
    exact h.2

/-! ### C2: failure conditions of parseGuard -/

/-- C2 counterexample: the guard text `(a-b)x` matches none of the three
syntactic forms of the spec — it is not a single character, not a hex
escape, and not (exactly) the range form `(A-B)` — yet `parseGuard`
does not fail: it returns the `(a-b)` range predicate.  So "fails if
the text matches none of the three forms" is false as stated. -/
theorem c2_counterexample :
    ((strCps "(a-b)x").length = 1 → False) ∧
    parseUform (strCps "(a-b)x") = none ∧
    ¬ specRangeForm (strCps "(a-b)x") ∧
    parseGuard (strCps "(a-b)x") = some (rangeAst 97 98) := by
  refine ⟨by decide, by decide, ?_, by decide⟩
  rintro ⟨ta, a, tb, b, h1, h2, heq⟩
  have h29 : ((0x28 :: (ta ++ 0x2D :: (tb ++ [0x29]))) : List Nat).getLast? = some 0x29 := by
    have hsh : (0x28 :: (ta ++ 0x2D :: (tb ++ [0x29])) : List Nat)
        = ((0x28 :: ta) ++ (0x2D :: tb)) ++ [0x29] := by simp
    rw [hsh, List.getLast?_concat]
  rw [← heq] at h29
  have h120 : (strCps "(a-b)x").getLast? = some 120 := by decide
  rw [h120] at h29
  simp at h29

/-- C2 amended: `parseGuard` fails exactly when the text is not a single
character, not a hex escape, and the range pattern — anchored at the
start only, so trailing characters after `)` are permitted — either
does not match or matches with its bounds reversed.  (The source raises
no dedicated `MalformedGuardError`: a reversed range fails an `assert`,
and an unmatched text makes `parseGuard` return `None`, which the
`If.condition` setter rejects; both abort compilation and are modelled
as `none`.)  In particular `(z-a)` fails. -/
theorem c2_amended :
    (∀ g : List Nat, parseGuard g = none ↔
      (g.length ≠ 1 ∧ parseUform g = none ∧
        (matchRange g = none ∨ ∃ a b, matchRange g = some (a, b) ∧ b < a))) ∧
    parseGuard (strCps "(z-a)") = none := by
  refine ⟨?_, by decide⟩
  intro g
  match g with
  | [] => simp [parseGuard, parseUform, matchRange]
  | [c] => simp [parseGuard]
  | c1 :: c2 :: rest =>
    rcases hu : parseUform (c1 :: c2 :: rest) with _ | v
    · rcases hm : matchRange (c1 :: c2 :: rest) with _ | ⟨a, b⟩
      · simp [parseGuard, hu, hm]
      · simp only [parseGuard, hu, hm]
        split_ifs with hab
        · refine iff_of_false (by simp) ?_
          rintro ⟨-, -, h | ⟨a', b', heq, hba⟩⟩
          · simp at h
          · simp only [Option.some.injEq, Prod.mk.injEq] at heq
            omega
        · exact iff_of_true rfl ⟨by simp, by simp [hu], Or.inr ⟨a, b, by simp [hm], by omega⟩⟩
    · simp [parseGuard, hu]

/-- Instance of the amended failure condition: `abc` (not a single
character, not an escape, no range match) makes `parseGuard` fail. -/
theorem c2_amended_witness : parseGuard (strCps "abc") = none :=
  (c2_amended.1 (strCps "abc")).mpr ⟨by decide, by decide, Or.inl (by decide)⟩

/-! ### C1: the rule chain -/

theorem buildAst_chain (doc : CodecDoc) (fuel : Nat) :
    ∀ (l : List (List Nat × EmitterSpec)) (root : AstNode),
      buildAst doc fuel l = .ok root →
      ∃ (pairs : List (AstNode × AstNode)) (dflt : AstNode),
        List.Forall₂ (fun (r : List Nat × EmitterSpec) (p : AstNode × AstNode) =>
          parseGuard r.1 = some p.1 ∧ parseEmitter doc fuel r.2 = .ok p.2) l pairs ∧
        (truthy doc.defaultEmitter = true →
          ∃ spec, doc.defaultEmitter = some spec ∧ parseEmitter doc fuel spec = .ok dflt) ∧
        (truthy doc.defaultEmitter = false → dflt = .Nop) ∧
        root = ruleChain pairs (.If (.Bool true) dflt .Nop) := by
  intro l
  induction l with
  | nil =>
    intro root h
    cases hd : doc.defaultEmitter with
    | none =>
      simp only [buildAst, hd, truthy, Bool.false_eq_true, if_false] at h
      simp only [Except.ok.injEq] at h
      subst h
      refine ⟨[], .Nop, List.Forall₂.nil, ?_, fun _ => rfl, by simp [ruleChain]⟩
      intro htr
      simp [truthy] at htr
    | some spec =>
      simp only [buildAst, hd] at h
      by_cases ht : truthy (some spec) = true
      · simp only [ht, if_true] at h
        cases hp : parseEmitter doc fuel spec with
        | error e => rw [hp] at h; simp at h
        | ok em =>
          rw [hp] at h
          simp only [Except.ok.injEq] at h
          subst h
          exact ⟨[], em, List.Forall₂.nil, fun _ => ⟨spec, rfl, hp⟩,
            fun hf => absurd ht (by simp [hf]), by simp [ruleChain]⟩
      · have htf : truthy (some spec) = false := by
          revert ht; cases truthy (some spec) <;> simp
        simp only [htf, Bool.false_eq_true, if_false, Except.ok.injEq] at h
        subst h
        exact ⟨[], .Nop, List.Forall₂.nil, fun htr => absurd htr ht,
          fun _ => rfl, by simp [ruleChain]⟩
  | cons r tl ih =>
    intro root h
    rcases r with ⟨guard, espec⟩
    simp only [buildAst] at h
    cases hg : parseGuard guard with
    | none => rw [hg] at h; simp at h
    | some cond =>
      rw [hg] at h
      cases hp : parseEmitter doc fuel espec with
      | error e => rw [hp] at h; simp at h
      | ok em =>
        rw [hp] at h
        cases hb : buildAst doc fuel tl with
        | error e => rw [hb] at h; simp at h
        | ok tailAst =>
          rw [hb] at h
          simp only [Except.ok.injEq] at h
          subst h
          obtain ⟨pairs, dflt, hf2, hdt, hdf, hroot⟩ := ih tailAst hb
          exact ⟨(cond, em) :: pairs, dflt, List.Forall₂.cons ⟨hg, hp⟩ hf2, hdt, hdf,
            by simp [ruleChain, List.foldr_cons] at hroot ⊢; rw [hroot]⟩

/-- C1 counterexample: with no rules and `DEFAULT-EMITTER` the empty
string — a supplied default emitter spec — the compiled root's final
`If` has true-branch `Nop`, not `parseEmitter("")` (which is
`ConstantEmitter("")`), because the source tests the default with
Python truthiness (`if self._default_emitter:`) and the empty string is
falsy. -/
theorem c1_counterexample :
    compileCodec doc0 5 = .ok ⟨"t", builtin_emitters, .If (.Bool true) .Nop .Nop⟩ ∧
    parseEmitter doc0 5 (.str "") = .ok (.ConstantEmitter "") ∧
    AstNode.Nop ≠ AstNode.ConstantEmitter "" :=
  ⟨rfl, rfl, by simp⟩

/-- C1 amended: a successfully compiled codec's root is the
right-leaning chain of `If` nodes, one per rule in order, with the
`i`-th condition `parseGuard(guard_i)` and true-branch
`parseEmitter(emitter_i)`; the final `If` has condition `Bool.true`,
false-branch `Nop`, and true-branch `parseEmitter(default)` when the
supplied default is truthy (a non-empty string or a reference object),
otherwise `Nop` — in particular a supplied but falsy (empty-string)
default yields `Nop`. -/
theorem c1_amended (doc : CodecDoc) (fuel : Nat) (c : Codec)
    (h : compileCodec doc fuel = .ok c) :
    ∃ (pairs : List (AstNode × AstNode)) (dflt : AstNode),
      List.Forall₂ (fun (r : List Nat × EmitterSpec) (p : AstNode × AstNode) =>
        parseGuard r.1 = some p.1 ∧ parseEmitter doc fuel r.2 = .ok p.2) doc.rules pairs ∧
      (truthy doc.defaultEmitter = true →
        ∃ spec, doc.defaultEmitter = some spec ∧ parseEmitter doc fuel spec = .ok dflt) ∧
      (truthy doc.defaultEmitter = false → dflt = .Nop) ∧
      c.root = ruleChain pairs (.If (.Bool true) dflt .Nop) := by
  unfold compileCodec at h
  cases hb : buildAst doc fuel doc.rules with
  | error e => rw [hb] at h; simp at h
  | ok root =>
    rw [hb] at h
    simp only [Except.ok.injEq] at h
    subst h
    simpa using buildAst_chain doc fuel doc.rules root hb

/-- Instance of the amended chain shape for a one-rule document with a
truthy default. -/
theorem c1_amended_witness :
    ∃ (pairs : List (AstNode × AstNode)) (dflt : AstNode),
      List.Forall₂ (fun (r : List Nat × EmitterSpec) (p : AstNode × AstNode) =>
        parseGuard r.1 = some p.1 ∧ parseEmitter doc1 10 r.2 = .ok p.2) doc1.rules pairs ∧
      (truthy doc1.defaultEmitter = true →
        ∃ spec, doc1.defaultEmitter = some spec ∧ parseEmitter doc1 10 spec = .ok dflt) ∧
      (truthy doc1.defaultEmitter = false → dflt = .Nop) ∧
      (Codec.mk "t" builtin_emitters (.If (eqAst 60) (.Builtin "HEX")
        (.If (.Bool true) (.ConstantEmitter "x") .Nop))).root
        = ruleChain pairs (.If (.Bool true) dflt .Nop) :=
  c1_amended doc1 10 _ rfl

/-! ### C5: the exposed emitter names -/

/-- C5 counterexample: a codec whose document references no builtin at
all (no rules, no default) still exposes all four builtin names — so
the exposed set is not "builtins actually used". -/
theorem c5_counterexample :
    compileCodec docNB 5
      = .ok ⟨"t", ["DEC", "HEX", "NOP", "IDENTITY"], .If (.Bool true) .Nop .Nop⟩ ∧
    docNB.rules = [] ∧ docNB.defaultEmitter = none ∧ userNames docNB = [] ∧
    "DEC" ∈ (Codec.mk "t" ["DEC", "HEX", "NOP", "IDENTITY"]
      (.If (.Bool true) .Nop .Nop)).emitters :=
  ⟨rfl, rfl, rfl, rfl, by simp⟩

/-- C5 amended: the exposed emitter names of a compiled codec are the
entire fixed builtin list (whether referenced or not) followed by the
user-defined names declared in the document. -/
theorem c5_amended (doc : CodecDoc) (fuel : Nat) (c : Codec)
    (h : compileCodec doc fuel = .ok c) :
    c.emitters = builtin_emitters ++ userNames doc := by
  unfold compileCodec at h
  cases hb : buildAst doc fuel doc.rules with
  | error e => rw [hb] at h; simp at h
  | ok root =>
    rw [hb] at h
    simp only [Except.ok.injEq] at h
    subst h
    rfl

/-- Instance of the amended emitter-name list at a concrete codec. -/
theorem c5_amended_witness :
    (Codec.mk "t" (builtin_emitters ++ userNames docNB)
      (.If (.Bool true) .Nop .Nop)).emitters = builtin_emitters ++ userNames docNB :=
  c5_amended docNB 5 _ rfl

/-! ### C3: cyclic user-defined emitters -/

theorem parseEmitter_cyclic_aux : ∀ fuel : Nat,
    parseEmitter cyclicDoc fuel (.ref "A") = .error .outOfFuel ∧
    parseEmitterSeq cyclicDoc fuel [.ref "A"] = .error .outOfFuel := by
  intro fuel
  induction fuel with
  | zero => exact ⟨rfl, rfl⟩
  | succ n ih =>
    constructor
    · calc parseEmitter cyclicDoc (n + 1) (.ref "A")
          = (match parseEmitterSeq cyclicDoc n [.ref "A"] with
             | .error e => .error e
             | .ok es => .ok (.EmitterList es)) := rfl
        _ = .error .outOfFuel := by rw [ih.2]
    · calc parseEmitterSeq cyclicDoc (n + 1) [.ref "A"]
          = (match parseEmitter cyclicDoc n (.ref "A") with
             | .error e => .error e
             | .ok node =>
               match parseEmitterSeq cyclicDoc n [] with
               | .error e => .error e
               | .ok es => .ok (.cons node es)) := rfl
        _ = .error .outOfFuel := by rw [ih.1]

/-- C3 (code bug): the source's `parseEmitter` tracks no chain of names
being resolved; on the document defining `"A"` as `[{"emitter":"A"}]`
it recurses without bound instead of failing with `CycleError` — under
every finite recursion budget the resolution of `{"emitter":"A"}`
exhausts the budget without producing a value or any other error. -/
theorem c3_no_cycle_guard : ∀ fuel : Nat,
    parseEmitter cyclicDoc fuel (.ref "A") = .error .outOfFuel :=
  fun fuel => (parseEmitter_cyclic_aux fuel).1

/-! ### C6: duplicate targets in the Encoder -/

/-- C6: adding a codec whose target equals the target of an
already-added codec fails with the duplicate-target error and returns
the registry unchanged; the encoder still holds exactly one codec with
that target. -/
theorem c6_duplicate_add (e : Encoder) (c : Codec) (hwf : EncoderWF e)
    (hdup : ∃ p ∈ e.codecs, Codec.target p = c.target) :
    Encoder.add e c = (.error .duplicateTarget, e) ∧
    (e.codecs.filter (fun p => p.target == c.target)).length = 1 := by
  obtain ⟨p, hp, hpt⟩ := hdup
  obtain ⟨hmap, hnodup⟩ := hwf
  have hmem : c.target ∈ e.targets := by
    rw [hmap, ← hpt]
    exact List.mem_map_of_mem Codec.target hp
  constructor
  · simp [Encoder.add, hmem]
  · rw [← List.countP_eq_length_filter]
    have hcp : List.countP (fun p => p.target == c.target) e.codecs
        = List.count c.target (e.codecs.map Codec.target) := by
      rw [List.count, List.countP_map]
      rfl
    rw [hcp, ← hmap]
    exact List.count_eq_one_of_mem hnodup hmem

/-- Concrete instance: two codecs with target "html"; the second `add`
fails and the encoder still holds exactly one "html" codec. -/
theorem c6_duplicate_add_witness :
    Encoder.add enc1 htmlC2 = (.error .duplicateTarget, enc1) ∧
    (enc1.codecs.filter (fun p => p.target == htmlC2.target)).length = 1 := by
  apply c6_duplicate_add
  · refine ⟨rfl, ?_⟩
    show (["html"] : List String).Nodup
    simp
  · refine ⟨htmlC1, ?_, rfl⟩
    show htmlC1 ∈ [htmlC1]
    simp

/-! ### C9: rendering is pure -/

mutual
theorem renderSt_state : ∀ (f : AstFormatter) (n : AstNode), (renderSt f n).2 = f
  | f, .Codepoint cp => by
    simp only [renderSt]
    split <;> rfl
  | f, .Candidate => by
    simp only [renderSt]
    split <;> rfl
  | f, .Bool b => by
    simp only [renderSt]
    split <;> rfl
  | f, .Nop => by
    simp only [renderSt]
    split <;> rfl
  | f, .Builtin name => by
    simp only [renderSt]
    split <;> rfl
  | f, .ConstantEmitter s => by
    simp only [renderSt]
    split <;> rfl
  | f, .BinOp op o1 o2 => by
    simp only [renderSt]
    split
    · rfl
    · split
      · next f1 h1 =>
        have e1 := renderSt_state f o1
        rw [h1] at e1
        exact e1
      · next s1 f1 h1 =>
        have e1 := renderSt_state f o1
        rw [h1] at e1
        split
        · next f2 h2 =>
          have e2 := renderSt_state f1 o2
          rw [h2] at e2
          exact e2.trans e1
        · next s2 f2 h2 =>
          have e2 := renderSt_state f1 o2
          rw [h2] at e2
          exact e2.trans e1
  | f, .EmitterList es => renderSeqSt_state f es
  | f, .If c t e => by
    simp only [renderSt]
    split
    · rfl
    · split
      · next f1 h1 =>
        have e1 := renderSt_state f c
        rw [h1] at e1
        exact e1
      · next sc f1 h1 =>
        have e1 := renderSt_state f c
        rw [h1] at e1
        split
        · next f2 h2 =>
          have e2 := renderSt_state f1 t
          rw [h2] at e2
          exact e2.trans e1
        · next st f2 h2 =>
          have e2 := renderSt_state f1 t
          rw [h2] at e2
          split
          · next f3 h3 =>
            have e3 := renderSt_state f2 e
            rw [h3] at e3
            exact e3.trans (e2.trans e1)
          · next se f3 h3 =>
            have e3 := renderSt_state f2 e
            rw [h3] at e3
            exact e3.trans (e2.trans e1)
theorem renderSeqSt_state : ∀ (f : AstFormatter) (s : EmitterSeq), (renderSeqSt f s).2 = f
  | f, .nil => rfl
  | f, .cons h t => by
    simp only [renderSeqSt]
    split
    · next f1 h1 =>
      have e1 := renderSt_state f h
      rw [h1] at e1
      exact e1
    · next s1 f1 h1 =>
      have e1 := renderSt_state f h
      rw [h1] at e1
      split
      · next f2 h2 =>
        have e2 := renderSeqSt_state f1 t
        rw [h2] at e2
        exact e2.trans e1
      · next sr f2 h2 =>
        have e2 := renderSeqSt_state f1 t
        rw [h2] at e2
        exact e2.trans e1
end

/-- C9: rendering never changes the formatter (its template mapping and
escape function), so rendering the same AST node twice — the second
time from the state the first render left behind — yields the identical
result string: `render` is a pure function of the node and the
formatter configuration. -/
theorem c9_render_deterministic (f : AstFormatter) (n : AstNode) :
    (renderSt f n).2 = f ∧
    (renderSt ((renderSt f n).2) n).1 = (renderSt f n).1 := by
  refine ⟨renderSt_state f n, ?_⟩
  rw [renderSt_state f n]

/-! ### C4: missing template entries -/

/-- C4 counterexample: rendering a `Bool` node whose dispatch key
("true") has no entry in the template mapping does not fail — the
source's `.get(key, '')` silently substitutes the empty template and
the render call returns the empty string. -/
theorem c4_counterexample :
    lookupT emptyFmt.format_strings (boolKey true) = none ∧
    (renderSt emptyFmt (.Bool true)).1 = some "" :=
  ⟨rfl, rfl⟩

/-- C4 amended: a missing entry for a class-name dispatch key
(`If`, `Candidate`, `Codepoint`, `Nop`, `Builtin`, `ConstantEmitter`)
makes the render call fail immediately with a `KeyError`; but for the
`BinOp` operator keys and the `Bool` value keys a missing entry does
not fail — `getFstring` falls back to the empty template (so a `Bool`
node renders as the empty string).  `EmitterList` consults no template
of its own. -/
theorem c4_amended (f : AstFormatter) (n : AstNode) :
    (isClassDispatched n = true → lookupT f.format_strings (className n) = none →
      (renderSt f n).1 = none) ∧
    (∀ op o1 o2, n = .BinOp op o1 o2 → lookupT f.format_strings (opKey op) = none →
      getFstring f n = some []) ∧
    (∀ b, n = .Bool b → lookupT f.format_strings (boolKey b) = none →
      (renderSt f n).1 = some "") := by
  refine ⟨?_, ?_, ?_⟩
  · intro hcd hlk
    cases n with
    | BinOp op o1 o2 => simp [isClassDispatched] at hcd
    | Bool b => simp [isClassDispatched] at hcd
    | EmitterList es => simp [isClassDispatched] at hcd
    | Codepoint cp =>
      simp only [renderSt, getFstring]
      rw [hlk]
    | Candidate =>
      simp only [renderSt, getFstring]
      rw [hlk]
    | Nop =>
      simp only [renderSt, getFstring]
      rw [hlk]
    | Builtin name =>
      simp only [renderSt, getFstring]
      rw [hlk]
    | ConstantEmitter s =>
      simp only [renderSt, getFstring]
      rw [hlk]
    | If c t e =>
      simp only [renderSt, getFstring]
      rw [hlk]
  · rintro op o1 o2 rfl hlk
    simp [getFstring, hlk]
  · rintro b rfl hlk
    simp [renderSt, getFstring, hlk, renderRaw]

/-- Instance of the amended behavior: with an empty template mapping,
rendering a `Candidate` node fails with a `KeyError`. -/
theorem c4_amended_witness : (renderSt emptyFmt .Candidate).1 = none :=
  (c4_amended emptyFmt .Candidate).1 rfl rfl

end C2E
